import Mathlib

/-!
Shallow embedding of the Cross-Chain-Price-Checker core
(`cross_chain_price_checker/price_checker.py`, `utils.py`, `token_resolver.py`,
`exchanges/base.py`) and proofs about it.

Python floats are modelled as rationals (`ℚ`), Python `None`-able values as
`Option`, raised exceptions as `Except`/`Option`, and Python dicts as
association lists with insert-or-overwrite semantics.
-/

unseal Rat.add Rat.sub Rat.mul Rat.inv

/-- Model of `ExchangeType` from `exchanges/base.py`. -/
inductive ExchangeType where
  | DEX
  | CEX
deriving DecidableEq, Repr

/-- Model of the `ExchangePrice` dataclass from `exchanges/base.py`. -/
structure ExchangePrice where
  exchange_name : String
  exchange_type : ExchangeType
  price : Option ℚ
  token_symbol : String
  chain : Option String := none
  pair : Option String := none
  liquidity : Option ℚ := none
  error : Option String := none
deriving DecidableEq, Repr

/-- Model of the `ExchangePrice.is_valid` property:
`self.price is not None and self.price > 0 and self.error is None`. -/
def ExchangePrice.is_valid (p : ExchangePrice) : Bool :=
  (match p.price with
   | some v => decide (0 < v)
   | none => false) && p.error.isNone

/-- Value a quote's `price` field contributes when Python reads it directly
(only ever reached on quotes whose price is present). -/
def ExchangePrice.priceVal (p : ExchangePrice) : ℚ :=
  p.price.getD 0

/-- Model of the `ArbitrageOpportunity` dataclass from `price_checker.py`. -/
structure ArbitrageOpportunity where
  buy_exchange : String
  sell_exchange : String
  buy_price : ℚ
  sell_price : ℚ
  price_difference_percent : ℚ
  potential_profit_percent : ℚ
deriving DecidableEq, Repr

/-- Model of `calculate_price_difference` from `utils.py`:
returns `0.0` when `price2 == 0`, otherwise `((price1 - price2) / price2) * 100`. -/
def calculate_price_difference (price1 price2 : ℚ) : ℚ :=
  if price2 = 0 then 0 else (price1 - price2) / price2 * 100

/-- Model of Python `min(xs)` on a nonempty list (junk value `0` on `[]`,
where Python would raise; the checked analyzer uses `pymin?` instead). -/
def pymin : List ℚ → ℚ
  | [] => 0
  | x :: xs => xs.foldl min x

/-- Model of Python `max(xs)` on a nonempty list (junk value `0` on `[]`). -/
def pymax : List ℚ → ℚ
  | [] => 0
  | x :: xs => xs.foldl max x

/-- Model of Python `sum(xs)`. -/
def pysum (l : List ℚ) : ℚ :=
  l.foldl (· + ·) 0

/-- Body of the opportunity-emitting branch of `PriceChecker.analyze_prices`:
given the already-computed `diff_percent` and the two quotes, pick buy/sell
sides by `price1.price < price2.price` and compute the profit percentage. -/
def mkOpportunity (price1 price2 : ExchangePrice) (diff_percent : ℚ) : ArbitrageOpportunity :=
  if price1.priceVal < price2.priceVal then
    { buy_exchange := price1.exchange_name
      sell_exchange := price2.exchange_name
      buy_price := price1.priceVal
      sell_price := price2.priceVal
      price_difference_percent := diff_percent
      potential_profit_percent := (price2.priceVal - price1.priceVal) / price1.priceVal * 100 }
  else
    { buy_exchange := price2.exchange_name
      sell_exchange := price1.exchange_name
      buy_price := price2.priceVal
      sell_price := price1.priceVal
      price_difference_percent := diff_percent
      potential_profit_percent := (price1.priceVal - price2.priceVal) / price2.priceVal * 100 }

/-- The nested pairwise loop of `analyze_prices`
(`for i, price1 in enumerate(valid_prices): for price2 in valid_prices[i+1:]`),
emitting an `ArbitrageOpportunity` whenever
`abs(calculate_price_difference(price1.price, price2.price)) >= min_diff`. -/
def rawOpportunities (min_diff : ℚ) : List ExchangePrice → List ArbitrageOpportunity
  | [] => []
  | price1 :: rest =>
    (rest.filterMap fun price2 =>
      let diff_percent := |calculate_price_difference price1.priceVal price2.priceVal|
      if min_diff ≤ diff_percent then some (mkOpportunity price1 price2 diff_percent)
      else none)
    ++ rawOpportunities min_diff rest

/-- Comparison used to model
`opportunities.sort(key=lambda x: x.potential_profit_percent, reverse=True)`:
Python's sort is stable and `reverse=True` orders descending while keeping
equal keys in insertion order, which is exactly insertion sort under this
relation. -/
def oppGE (a b : ArbitrageOpportunity) : Prop :=
  b.potential_profit_percent ≤ a.potential_profit_percent

instance : DecidableRel oppGE := fun a b =>
  inferInstanceAs (Decidable (b.potential_profit_percent ≤ a.potential_profit_percent))

/-- Model of the dictionary returned by `PriceChecker.analyze_prices`; keys
that the zero-valid-quotes branch omits are `none`. -/
structure Analysis where
  count : ℕ
  valid_count : ℕ
  error_count : ℕ
  min_price : Option ℚ := none
  max_price : Option ℚ := none
  avg_price : Option ℚ := none
  spread_percent : Option ℚ := none
  prices : List ExchangePrice
  opportunities : List ArbitrageOpportunity
deriving DecidableEq, Repr

/-- Model of `PriceChecker.analyze_prices`; the configured
`comparison.min_price_difference_percent` threshold is passed explicitly. -/
def analyze_prices (min_diff : ℚ) (prices : List ExchangePrice) : Analysis :=
  let valid_prices := prices.filter ExchangePrice.is_valid
  match valid_prices with
  | [] =>
    { count := 0
      valid_count := 0
      error_count := prices.length
      prices := prices
      opportunities := [] }
  | _ :: _ =>
    let price_values := valid_prices.map ExchangePrice.priceVal
    let min_price := pymin price_values
    let max_price := pymax price_values
    let avg_price := pysum price_values / price_values.length
    let spread_percent := (max_price - min_price) / min_price * 100
    let opportunities := rawOpportunities min_diff valid_prices
    { count := prices.length
      valid_count := valid_prices.length
      error_count := prices.length - valid_prices.length
      min_price := some min_price
      max_price := some max_price
      avg_price := some avg_price
      spread_percent := some spread_percent
      prices := prices
      opportunities := opportunities.insertionSort oppGE }

/-- Python dict assignment `d[k] = v` on an association list: overwrite in
place if the key exists (keeping its position), else append at the end. -/
def dictInsert {V : Type} (k : String) (v : V) : List (String × V) → List (String × V)
  | [] => [(k, v)]
  | (k', v') :: rest => if k' = k then (k, v) :: rest else (k', v') :: dictInsert k v rest

/-- Python dict read `d.get(k)` on an association list. -/
def dictGet {V : Type} (k : String) : List (String × V) → Option V
  | [] => none
  | (k', v') :: rest => if k' = k then some v' else dictGet k rest

/-- Trace of one run of the `async_wrapper` built by
`retry_on_failure(max_retries, delay)` in `utils.py`: the propagated result
(`none` models `raise None` when `max_retries = 0`), the number of times the
wrapped function was invoked, and the list of back-off sleeps performed. -/
structure RetryOutcome (E A : Type) where
  result : Option (Except E A)
  calls : ℕ
  delays : List ℚ
deriving Repr

/-- Loop body of `retry_on_failure`'s wrapper. `f k` is the outcome of the
`k`-th invocation of the wrapped function; `attempt` is the current loop
index and `remaining` the number of loop iterations left
(`remaining = 0` models falling off the `for` loop and re-raising
`last_exception`). The wrapper sleeps `delay * (attempt + 1)` only while
`attempt < max_retries - 1`, i.e. while `remaining > 1`. -/
def retryAux {E A : Type} (f : ℕ → Except E A) (delay : ℚ) :
    ℕ → ℕ → Option E → RetryOutcome E A
  | _, 0, lastExc => { result := lastExc.map Except.error, calls := 0, delays := [] }
  | attempt, remaining + 1, _ =>
    match f attempt with
    | Except.ok a => { result := some (Except.ok a), calls := 1, delays := [] }
    | Except.error e =>
      let rest := retryAux f delay (attempt + 1) remaining (some e)
      if remaining = 0 then
        { result := rest.result, calls := rest.calls + 1, delays := rest.delays }
      else
        { result := rest.result, calls := rest.calls + 1,
          delays := delay * (attempt + 1) :: rest.delays }

/-- Model of `retry_on_failure(max_retries, delay)` from `utils.py` applied
to a fallible operation whose `k`-th invocation yields `f k`. -/
def retry_on_failure {E A : Type} (f : ℕ → Except E A) (max_retries : ℕ) (delay : ℚ) :
    RetryOutcome E A :=
  retryAux f delay 0 max_retries none

/-- The six concrete adapters wired up by `PriceChecker._setup_exchanges`. -/
inductive ExchangeKind where
  | uniswapV2
  | uniswapV3
  | pancakeswapV2
  | raydium
  | binance
  | bybit
deriving DecidableEq, Repr

/-- Value of `exchange.exchange_type` for each adapter class. -/
def ExchangeKind.exchangeType : ExchangeKind → ExchangeType
  | .uniswapV2 | .uniswapV3 | .pancakeswapV2 | .raydium => ExchangeType.DEX
  | .binance | .bybit => ExchangeType.CEX

/-- Chain whose resolved address `get_token_prices` passes to a DEX adapter
(`ethereum` for the Uniswap classes, `bsc` for PancakeSwap, `solana` for
Raydium); `none` for CEX adapters, which receive the symbol instead. -/
def ExchangeKind.dexChain : ExchangeKind → Option String
  | .uniswapV2 | .uniswapV3 => some "ethereum"
  | .pancakeswapV2 => some "bsc"
  | .raydium => some "solana"
  | .binance | .bybit => none

/-- One adapter in the checker's `self.exchanges` list: its class together
with the behaviour of its `get_price` coroutine. A DEX adapter is called as
`get_price(token_address, token_symbol)`; a CEX adapter as
`get_price(token_symbol)` (second argument `""` models the empty kwargs).
`Except.error msg` models the coroutine raising an exception with text
`msg`, i.e. a failure escaping the adapter contract. -/
structure Exchange where
  kind : ExchangeKind
  get_price : String → String → Except String ExchangePrice

/-- Model of the resolver output consumed by `get_token_prices`
(`token_info['symbol']` and `token_info.get('platforms', {})`). -/
structure TokenInfo where
  id : Option String
  symbol : String
  name : Option String
  platforms : List (String × String)
deriving DecidableEq, Repr

/-- Task construction loop of `PriceChecker.get_token_prices`: DEX adapters
participate only when the resolved addresses contain a truthy address for
their chain; CEX adapters always participate with the symbol. The list
holds each dispatched call's outcome in task order (as `asyncio.gather`
returns them). -/
def buildTasks (exchanges : List Exchange) (token_symbol : String)
    (addresses : List (String × String)) : List (Except String ExchangePrice) :=
  exchanges.filterMap fun ex =>
    match ex.kind.exchangeType with
    | ExchangeType.DEX =>
      match ex.kind.dexChain with
      | some chain =>
        match dictGet chain addresses with
        | some token_address =>
          if token_address = "" then none
          else some (ex.get_price token_address token_symbol)
        | none => none
      | none => none
    | ExchangeType.CEX => some (ex.get_price token_symbol "")

/-- Model of `PriceChecker.get_token_prices` after the resolver step:
`resolution` is the outcome of `search_token` (`none` when the token could
not be resolved, in which case the empty list is returned); results that are
exceptions are filtered out of the gathered list, keeping only
`ExchangePrice` values. -/
def get_token_prices (resolution : Option TokenInfo) (exchanges : List Exchange) :
    List ExchangePrice :=
  match resolution with
  | none => []
  | some token_info =>
    let tasks := buildTasks exchanges token_info.symbol token_info.platforms
    if tasks.isEmpty then []
    else tasks.filterMap fun price =>
      match price with
      | Except.ok p => some p
      | Except.error _ => none

/-- Model of `PriceChecker.check_token_price`: fetch then analyze, with the
configured threshold passed explicitly. -/
def check_token_price (min_diff : ℚ) (resolution : Option TokenInfo)
    (exchanges : List Exchange) : Analysis :=
  analyze_prices min_diff (get_token_prices resolution exchanges)

/-- Result entry stored by `check_multiple_tokens`: either the analysis
dict, or the `{'error': str(e)}` dict recorded when `check_token_price`
raised an exception with text `e`. -/
inductive TokenReport where
  | ok (analysis : Analysis)
  | err (msg : String)
deriving DecidableEq, Repr

/-- The `try`/`except` around one `check_token_price` call inside
`check_multiple_tokens`: a normal result is stored as the analysis dict, a
raised exception as the `{'error': str(e)}` dict. -/
def mkReport : Except String Analysis → TokenReport
  | Except.ok a => TokenReport.ok a
  | Except.error e => TokenReport.err e

/-- Loop of `PriceChecker.check_multiple_tokens` over the token list;
`f i token` is the outcome of the `i`-th iteration's `check_token_price`
call (an exception being modelled as `Except.error`), and the accumulator
is the Python `results` dict. -/
def checkMultipleAux (f : ℕ → String → Except String Analysis) :
    ℕ → List (String × TokenReport) → List String → List (String × TokenReport)
  | _, results, [] => results
  | i, results, token :: rest =>
    checkMultipleAux f (i + 1) (dictInsert token (mkReport (f i token)) results) rest

/-- Model of `PriceChecker.check_multiple_tokens`. -/
def check_multiple_tokens (f : ℕ → String → Except String Analysis)
    (tokens : List String) : List (String × TokenReport) :=
  checkMultipleAux f 0 [] tokens

/-- Division that models Python `/`: `none` when the denominator is zero
(where Python raises `ZeroDivisionError`). -/
def pydiv (a b : ℚ) : Option ℚ :=
  if b = 0 then none else some (a / b)

/-- Checked model of `calculate_price_difference`: the `price2 == 0` guard
returns `0.0` before any division is attempted. -/
def calculate_price_difference_checked (price1 price2 : ℚ) : Option ℚ :=
  if price2 = 0 then some 0
  else (pydiv (price1 - price2) price2).map (· * 100)

/-- Checked model of the opportunity constructor: the profit division
`(sell_price - buy_price) / buy_price` may in principle raise. -/
def mkOpportunityChecked (price1 price2 : ExchangePrice) (diff_percent : ℚ) :
    Option ArbitrageOpportunity :=
  if price1.priceVal < price2.priceVal then
    (pydiv (price2.priceVal - price1.priceVal) price1.priceVal).map fun q =>
      { buy_exchange := price1.exchange_name
        sell_exchange := price2.exchange_name
        buy_price := price1.priceVal
        sell_price := price2.priceVal
        price_difference_percent := diff_percent
        potential_profit_percent := q * 100 }
  else
    (pydiv (price1.priceVal - price2.priceVal) price2.priceVal).map fun q =>
      { buy_exchange := price2.exchange_name
        sell_exchange := price1.exchange_name
        buy_price := price2.priceVal
        sell_price := price1.priceVal
        price_difference_percent := diff_percent
        potential_profit_percent := q * 100 }

/-- Checked model of the pairwise opportunity loop, propagating any
would-be arithmetic error. -/
def rawOpportunitiesChecked (min_diff : ℚ) : List ExchangePrice → Option (List ArbitrageOpportunity)
  | [] => some []
  | price1 :: rest => do
    let inner ← rest.foldr (fun price2 acc => do
      let acc ← acc
      let d ← calculate_price_difference_checked price1.priceVal price2.priceVal
      let diff_percent := |d|
      if min_diff ≤ diff_percent then
        let opp ← mkOpportunityChecked price1 price2 diff_percent
        pure (opp :: acc)
      else
        pure acc) (some [])
    let outer ← rawOpportunitiesChecked min_diff rest
    pure (inner ++ outer)

/-- Python `min(xs)` as a fallible operation: `none` on the empty list. -/
def pyminChecked : List ℚ → Option ℚ
  | [] => none
  | x :: xs => some (xs.foldl min x)

/-- Python `max(xs)` as a fallible operation: `none` on the empty list. -/
def pymaxChecked : List ℚ → Option ℚ
  | [] => none
  | x :: xs => some (xs.foldl max x)

/-- Checked model of `PriceChecker.analyze_prices` in which every Python
operation that can raise an arithmetic error (`/` and `min`/`max` on an
empty list) is fallible; `none` models the call raising. -/
def analyze_prices_checked (min_diff : ℚ) (prices : List ExchangePrice) : Option Analysis :=
  let valid_prices := prices.filter ExchangePrice.is_valid
  match valid_prices with
  | [] =>
    some { count := 0
           valid_count := 0
           error_count := prices.length
           prices := prices
           opportunities := [] }
  | _ :: _ => do
    let price_values := valid_prices.map ExchangePrice.priceVal
    let min_price ← pyminChecked price_values
    let max_price ← pymaxChecked price_values
    let avg_price ← pydiv (pysum price_values) price_values.length
    let spread ← pydiv (max_price - min_price) min_price
    let opportunities ← rawOpportunitiesChecked min_diff valid_prices
    pure { count := prices.length
           valid_count := valid_prices.length
           error_count := prices.length - valid_prices.length
           min_price := some min_price
           max_price := some max_price
           avg_price := some avg_price
           spread_percent := some (spread * 100)
           prices := prices
           opportunities := opportunities.insertionSort oppGE }

/-- Cache entry of the `AsyncCache` in `utils.py`: the stored value together
with its write timestamp. Values stored by the resolver are
`Option TokenInfo` (both `search_token` and `get_token_info` may cache
`None`). Time is modelled as a rational number of seconds. -/
structure CacheEntry where
  value : Option TokenInfo
  timestamp : ℚ
deriving DecidableEq, Repr

/-- State of one `AsyncCache` (its `_cache` and `_timestamps` dicts). -/
abbrev Cache : Type := List (String × CacheEntry)

/-- Model of `AsyncCache.get(key)` at time `now` with time-to-live `ttl`:
returns the stored value if the key is present and not expired; an expired
entry is deleted. The returned cache is the possibly-updated state. -/
def cacheGet (ttl now : ℚ) (key : String) (c : Cache) : Option (Option TokenInfo) × Cache :=
  match dictGet key c with
  | none => (none, c)
  | some entry =>
    if now - entry.timestamp < ttl then (some entry.value, c)
    else (none, c.filter fun kv => kv.1 ≠ key)

/-- Model of `AsyncCache.set(key, value)` at time `now`. -/
def cacheSet (key : String) (value : Option TokenInfo) (now : ℚ) (c : Cache) : Cache :=
  dictInsert key { value := value, timestamp := now } c

/-- Python truthiness of a cached resolver value: `None` is falsy, a token
info dict (always nonempty when built) is truthy. Models the `if cached:`
checks in `token_resolver.py`. -/
def truthy : Option TokenInfo → Bool
  | some _ => true
  | none => false

/-- Entry of CoinGecko's `coins/list` response as read by `search_token`
(each field is the result of `coin.get(field, '')`). -/
structure Coin where
  id : String
  symbol : String
  name : String
deriving DecidableEq, Repr

/-- Detail payload of CoinGecko's `coins/{id}` endpoint as read by
`get_token_info`; `platforms` maps platform name to address string (Python
skips falsy addresses, modelled by the empty string). -/
structure CoinDetail where
  id : Option String
  symbol : String
  name : Option String
  platforms : List (String × String)
deriving DecidableEq, Repr

/-- External metadata source: outcomes of the two `_make_request` calls the
resolver can issue. `Except.error` models the request raising after its
retry budget. -/
structure MetaSource where
  coinsList : Except String (List Coin)
  coinDetail : String → Except String CoinDetail

/-- Model of Python `str.lower()` (character-wise lowering; all identifiers
involved are ASCII). -/
def strLower (s : String) : String :=
  String.mk (s.data.map Char.toLower)

/-- Model of Python `str.upper()`. -/
def strUpper (s : String) : String :=
  String.mk (s.data.map Char.toUpper)

/-- Platform-name normalization loop of `get_token_info`: the first entry of
`PLATFORM_MAP` whose CoinGecko name equals `platform` wins, otherwise the
original platform name is kept. -/
def mapPlatform (platform : String) : String :=
  if platform = "ethereum" then "ethereum"
  else if platform = "binance-smart-chain" then "bsc"
  else if platform = "solana" then "solana"
  else if platform = "polygon-pos" then "polygon"
  else platform

/-- Construction of the `token_info` dict in `get_token_info`, including the
platform-address extraction loop (empty addresses skipped, recognized
platform names normalized, assignment into a dict). -/
def buildTokenInfo (data : CoinDetail) : TokenInfo :=
  { id := data.id
    symbol := strUpper data.symbol
    name := data.name
    platforms := data.platforms.foldl
      (fun acc pa => if pa.2 = "" then acc else dictInsert (mapPlatform pa.1) pa.2 acc) [] }

/-- Model of `TokenResolver.get_token_info(coin_id)` at time `now`: returns
the resolved info (or `none` on a failed fetch), the updated cache, and the
number of external requests issued. -/
def get_token_info (src : MetaSource) (ttl now : ℚ) (c : Cache) (coin_id : String) :
    Option TokenInfo × Cache × ℕ :=
  let cache_key := "info_" ++ coin_id
  match cacheGet ttl now cache_key c with
  | (some cached, c1) =>
    if truthy cached then (cached, c1, 0)
    else
      match src.coinDetail coin_id with
      | Except.error _ => (none, c1, 1)
      | Except.ok data =>
        let token_info := buildTokenInfo data
        (some token_info, cacheSet cache_key (some token_info) now c1, 1)
  | (none, c1) =>
    match src.coinDetail coin_id with
    | Except.error _ => (none, c1, 1)
    | Except.ok data =>
      let token_info := buildTokenInfo data
      (some token_info, cacheSet cache_key (some token_info) now c1, 1)

/-- Match condition of the `coins/list` search loop in `search_token`
(exact case-insensitive match on symbol, name or id; first match wins). -/
def coinMatches (query_lower : String) (coin : Coin) : Bool :=
  strLower coin.symbol = query_lower || strLower coin.name = query_lower ||
    strLower coin.id = query_lower

/-- Cache-miss path of `search_token` (the body of its `try` block): fetch
the coin list, scan it for the first case-insensitive match, fetch the
matching coin's detail via `get_token_info`, and cache the result — even a
`None` result — under the search key. -/
def searchTokenFetch (src : MetaSource) (ttl now : ℚ) (c1 : Cache) (cache_key query : String) :
    Option TokenInfo × Cache × ℕ :=
  match src.coinsList with
  | Except.error _ => (none, c1, 1)
  | Except.ok coins =>
    match coins.find? (coinMatches (strLower query)) with
    | none => (none, c1, 1)
    | some coin =>
      let (coin_info, c2, k) := get_token_info src ttl now c1 coin.id
      (coin_info, cacheSet cache_key coin_info now c2, 1 + k)

/-- Model of `TokenResolver.search_token(query)` at time `now`: returns the
resolved info (or `none`), the updated cache, and the number of external
metadata requests issued during the call. -/
def search_token (src : MetaSource) (ttl now : ℚ) (c : Cache) (query : String) :
    Option TokenInfo × Cache × ℕ :=
  let cache_key := "search_" ++ strLower query
  match cacheGet ttl now cache_key c with
  | (some cached, c1) =>
    if truthy cached then (cached, c1, 0)
    else searchTokenFetch src ttl now c1 cache_key query
  | (none, c1) => searchTokenFetch src ttl now c1 cache_key query

/-- C5: for every quote sequence containing zero valid quotes, `analyze_prices`
returns a normal result — not an error — with `valid_count = 0`, all price
statistics absent, and an empty opportunity sequence. -/
theorem analyze_prices_zero_valid (min_diff : ℚ) (prices : List ExchangePrice)
    (h : ∀ p ∈ prices, p.is_valid = false) :
    analyze_prices min_diff prices =
      { count := 0, valid_count := 0, error_count := prices.length,
        min_price := none, max_price := none, avg_price := none, spread_percent := none,
        prices := prices, opportunities := [] } := by
  have hf : prices.filter ExchangePrice.is_valid = [] :=
    List.filter_eq_nil_iff.mpr (by intro p hp; simp [h p hp])
  simp [analyze_prices, hf]

/-- Witness for C5 at a concrete input: one quote with a missing price and one
with an error set. -/
theorem analyze_prices_zero_valid_witness :
    analyze_prices 1
      [{ exchange_name := "A", exchange_type := ExchangeType.CEX, price := none,
         token_symbol := "T" },
       { exchange_name := "B", exchange_type := ExchangeType.CEX, price := some 5,
         token_symbol := "T", error := some "boom" }] =
      { count := 0, valid_count := 0, error_count := 2,
        min_price := none, max_price := none, avg_price := none, spread_percent := none,
        prices := [{ exchange_name := "A", exchange_type := ExchangeType.CEX, price := none,
                     token_symbol := "T" },
                   { exchange_name := "B", exchange_type := ExchangeType.CEX, price := some 5,
                     token_symbol := "T", error := some "boom" }],
        opportunities := [] } :=
  analyze_prices_zero_valid 1 _ (by decide)

/-- C8: three valid quotes priced 100, 101, 105 with threshold 0.5 yield
exactly 3 opportunities, and the highest-ranked one buys at 100, sells at
105, with a potential profit of 5 percent. -/
theorem analyze_prices_scenario_three_quotes :
    (analyze_prices (1/2)
      [{ exchange_name := "E1", exchange_type := ExchangeType.CEX, price := some 100,
         token_symbol := "T" },
       { exchange_name := "E2", exchange_type := ExchangeType.CEX, price := some 101,
         token_symbol := "T" },
       { exchange_name := "E3", exchange_type := ExchangeType.CEX, price := some 105,
         token_symbol := "T" }]).opportunities.length = 3 ∧
    ((analyze_prices (1/2)
      [{ exchange_name := "E1", exchange_type := ExchangeType.CEX, price := some 100,
         token_symbol := "T" },
       { exchange_name := "E2", exchange_type := ExchangeType.CEX, price := some 101,
         token_symbol := "T" },
       { exchange_name := "E3", exchange_type := ExchangeType.CEX, price := some 105,
         token_symbol := "T" }]).opportunities.head?.map fun o =>
        (o.buy_price, o.sell_price, o.potential_profit_percent)) = some (100, 105, 5) := by
  decide

/-- The retry loop invokes the wrapped function at most `remaining` times. -/
theorem retryAux_calls_le {E A : Type} (f : ℕ → Except E A) (d : ℚ) :
    ∀ (rem attempt : ℕ) (lastE : Option E), (retryAux f d attempt rem lastE).calls ≤ rem := by
  intro rem
  induction rem with
  | zero => intro attempt lastE; simp [retryAux]
  | succ r ih =>
    intro attempt lastE
    cases hf : f attempt with
    | ok a => simp [retryAux, hf]
    | error e =>
      simp only [retryAux, hf]
      by_cases hr : r = 0
      · rw [if_pos hr]
        exact Nat.succ_le_succ (ih _ _)
      · rw [if_neg hr]
        exact Nat.succ_le_succ (ih _ _)

/-- A run in which every remaining attempt fails: the loop performs every
iteration, sleeps linearly increasing delays after every attempt but the
last, and re-raises the last failure. -/
theorem retryAux_all_fail {E A : Type} (f : ℕ → Except E A) (d : ℚ) :
    ∀ (rem attempt : ℕ) (lastE : Option E), 1 ≤ rem →
      (∀ k, k < rem → (f (attempt + k)).isOk = false) →
      retryAux f d attempt rem lastE =
        { result := some (f (attempt + (rem - 1))), calls := rem,
          delays := (List.range (rem - 1)).map fun i => d * ((attempt + i + 1 : ℕ) : ℚ) } := by
  intro rem
  induction rem with
  | zero => intro attempt lastE h; omega
  | succ r ih =>
    intro attempt lastE _ hfail
    have h0 : (f attempt).isOk = false := by simpa using hfail 0 (Nat.succ_pos r)
    obtain ⟨e, he⟩ : ∃ e, f attempt = Except.error e := by
      cases hf : f attempt with
      | ok a => rw [hf] at h0; exact Bool.noConfusion h0
      | error e => exact ⟨e, rfl⟩
    rcases Nat.eq_zero_or_pos r with hr | hr
    · subst hr
      simp [retryAux, he]
    · have hfail' : ∀ k, k < r → (f (attempt + 1 + k)).isOk = false := by
        intro k hk
        rw [show attempt + 1 + k = attempt + (k + 1) from by omega]
        exact hfail (k + 1) (by omega)
      have hrec := ih (attempt + 1) (some e) hr hfail'
      have hrne : r ≠ 0 := Nat.pos_iff_ne_zero.mp hr
      simp only [retryAux, he, hrec, if_neg hrne, RetryOutcome.mk.injEq]
      refine ⟨?_, trivial, ?_⟩
      · rw [show attempt + 1 + (r - 1) = attempt + (r + 1 - 1) from by omega]
      · obtain ⟨r', rfl⟩ : ∃ r', r = r' + 1 := ⟨r - 1, by omega⟩
        simp only [Nat.add_sub_cancel]
        rw [List.range_succ_eq_map, List.map_cons, List.map_map]
        refine congrArg₂ _ (by push_cast; ring) ?_
        refine List.map_congr_left fun i _ => ?_
        simp only [Function.comp_apply]
        push_cast
        ring

/-- A run whose first success is at attempt index `k`: the loop stops there,
returning that result unchanged, having slept after each of the `k` failed
attempts. -/
theorem retryAux_first_success {E A : Type} (f : ℕ → Except E A) (d : ℚ) :
    ∀ (k rem attempt : ℕ) (lastE : Option E) (a : A), k < rem →
      f (attempt + k) = Except.ok a →
      (∀ i, i < k → (f (attempt + i)).isOk = false) →
      retryAux f d attempt rem lastE =
        { result := some (Except.ok a), calls := k + 1,
          delays := (List.range k).map fun i => d * ((attempt + i + 1 : ℕ) : ℚ) } := by
  intro k
  induction k with
  | zero =>
    intro rem attempt lastE a hk hok _
    obtain ⟨r, rfl⟩ : ∃ r, rem = r + 1 := ⟨rem - 1, by omega⟩
    rw [Nat.add_zero] at hok
    simp [retryAux, hok]
  | succ j ih =>
    intro rem attempt lastE a hk hok hfail
    obtain ⟨r, rfl⟩ : ∃ r, rem = r + 1 := ⟨rem - 1, by omega⟩
    have h0 : (f attempt).isOk = false := by simpa using hfail 0 (Nat.succ_pos j)
    obtain ⟨e, he⟩ : ∃ e, f attempt = Except.error e := by
      cases hf : f attempt with
      | ok b => rw [hf] at h0; exact Bool.noConfusion h0
      | error e => exact ⟨e, rfl⟩
    have hrne : r ≠ 0 := by omega
    have hok' : f (attempt + 1 + j) = Except.ok a := by
      rw [show attempt + 1 + j = attempt + (j + 1) from by omega]
      exact hok
    have hfail' : ∀ i, i < j → (f (attempt + 1 + i)).isOk = false := by
      intro i hi
      rw [show attempt + 1 + i = attempt + (i + 1) from by omega]
      exact hfail (i + 1) (by omega)
    have hrec := ih r (attempt + 1) (some e) a (by omega) hok' hfail'
    simp only [retryAux, he, hrec, if_neg hrne, RetryOutcome.mk.injEq]
    refine ⟨trivial, trivial, ?_⟩
    rw [List.range_succ_eq_map, List.map_cons, List.map_map]
    refine congrArg₂ _ (by push_cast; ring) ?_
    refine List.map_congr_left fun i _ => ?_
    simp only [Function.comp_apply]
    push_cast
    ring

/-- C4: a fallible operation wrapped with `retry_on_failure(m, d)` (with
`m ≥ 1`, `f k` the outcome of its `k`-th invocation) is invoked at most `m`
times; if the first success is at attempt `k < m`, that result is returned
unchanged after `k + 1` invocations, with linear back-off waits
`d·1, …, d·k` before the retries; and if all `m` attempts fail, the last
failure is re-raised after `m` invocations and waits `d·1, …, d·(m-1)`. -/
theorem retry_on_failure_spec {E A : Type} (f : ℕ → Except E A) (m : ℕ) (d : ℚ)
    (hm : 1 ≤ m) :
    (retry_on_failure f m d).calls ≤ m
    ∧ (∀ (k : ℕ) (a : A), k < m → f k = Except.ok a →
        (∀ i, i < k → (f i).isOk = false) →
        retry_on_failure f m d =
          { result := some (Except.ok a), calls := k + 1,
            delays := (List.range k).map fun i => d * ((i + 1 : ℕ) : ℚ) })
    ∧ ((∀ i, i < m → (f i).isOk = false) →
        retry_on_failure f m d =
          { result := some (f (m - 1)), calls := m,
            delays := (List.range (m - 1)).map fun i => d * ((i + 1 : ℕ) : ℚ) }) := by
  refine ⟨retryAux_calls_le f d m 0 none, ?_, ?_⟩
  · intro k a hk hok hfail
    have := retryAux_first_success f d k m 0 none a hk (by simpa using hok)
      (by intro i hi; simpa using hfail i hi)
    simpa using this
  · intro hfail
    have := retryAux_all_fail f d m 0 none hm (by intro i hi; simpa using hfail i hi)
    simpa using this

/-- Witness for C4 at a concrete run: the first invocation fails, the second
succeeds, so the wrapper returns the success after two calls and one wait of
`d·1 = 2`. -/
theorem retry_on_failure_spec_witness :
    retry_on_failure (fun k => if k = 0 then Except.error "boom" else Except.ok (42 : ℕ)) 3 2 =
      { result := some (Except.ok 42), calls := 2,
        delays := (List.range 1).map fun i => 2 * ((i + 1 : ℕ) : ℚ) } :=
  (retry_on_failure_spec (fun k => if k = 0 then Except.error "boom" else Except.ok (42 : ℕ))
      3 2 (by decide)).2.1 1 42 (by decide) (by rfl)
    (by intro i hi; interval_cases i; decide)

/-- Reading back the key just written into a Python dict yields the new value. -/
theorem dictGet_dictInsert_self {V : Type} (k : String) (v : V) :
    ∀ d : List (String × V), dictGet k (dictInsert k v d) = some v := by
  intro d
  induction d with
  | nil => simp [dictInsert, dictGet]
  | cons kv rest ih =>
    obtain ⟨k', v'⟩ := kv
    by_cases h : k' = k
    · simp [dictInsert, h, dictGet]
    · simp [dictInsert, h, dictGet, ih]

/-- Writing one key of a Python dict leaves reads of other keys unchanged. -/
theorem dictGet_dictInsert_ne {V : Type} {q k : String} (hne : q ≠ k) (v : V) :
    ∀ d : List (String × V), dictGet q (dictInsert k v d) = dictGet q d := by
  intro d
  have hkq : ¬k = q := fun h => hne h.symm
  induction d with
  | nil => simp [dictInsert, dictGet, hkq]
  | cons kv rest ih =>
    obtain ⟨k', v'⟩ := kv
    by_cases h : k' = k
    · subst h
      simp [dictInsert, dictGet, hkq]
    · by_cases hq : k' = q <;> simp [dictInsert, dictGet, h, hq, hne, ih]

/-- Key membership after a Python dict write. -/
theorem mem_keys_dictInsert {V : Type} (q k : String) (v : V) :
    ∀ d : List (String × V),
      (q ∈ (dictInsert k v d).map Prod.fst ↔ q = k ∨ q ∈ d.map Prod.fst) := by
  intro d
  induction d with
  | nil => simp [dictInsert]
  | cons kv rest ih =>
    obtain ⟨k', v'⟩ := kv
    by_cases h : k' = k
    · have hrw : dictInsert k v ((k', v') :: rest) = (k, v) :: rest := by
        simp [dictInsert, h]
      rw [hrw, List.map_cons, List.map_cons, List.mem_cons, List.mem_cons, h]
      tauto
    · have hrw : dictInsert k v ((k', v') :: rest) = (k', v') :: dictInsert k v rest := by
        simp [dictInsert, h]
      rw [hrw, List.map_cons, List.mem_cons, ih, List.map_cons, List.mem_cons]
      tauto

/-- A Python dict write preserves distinctness of the stored keys. -/
theorem nodup_keys_dictInsert {V : Type} (k : String) (v : V) :
    ∀ d : List (String × V), (d.map Prod.fst).Nodup →
      ((dictInsert k v d).map Prod.fst).Nodup := by
  intro d
  induction d with
  | nil => simp [dictInsert]
  | cons kv rest ih =>
    obtain ⟨k', v'⟩ := kv
    intro hnd
    rw [List.map_cons, List.nodup_cons] at hnd
    by_cases h : k' = k
    · have hrw : dictInsert k v ((k', v') :: rest) = (k, v) :: rest := by
        simp [dictInsert, h]
      rw [hrw, List.map_cons, List.nodup_cons, ← h]
      exact hnd
    · have hrw : dictInsert k v ((k', v') :: rest) = (k', v') :: dictInsert k v rest := by
        simp [dictInsert, h]
      rw [hrw, List.map_cons, List.nodup_cons]
      refine ⟨?_, ih hnd.2⟩
      rw [mem_keys_dictInsert]
      rintro (rfl | hm)
      · exact h rfl
      · exact hnd.1 hm

/-- Key membership of the `check_multiple_tokens` loop state. -/
theorem checkMultipleAux_mem_keys (f : ℕ → String → Except String Analysis) :
    ∀ (tokens : List String) (i : ℕ) (acc : List (String × TokenReport)) (q : String),
      (q ∈ (checkMultipleAux f i acc tokens).map Prod.fst ↔
        q ∈ acc.map Prod.fst ∨ q ∈ tokens) := by
  intro tokens
  induction tokens with
  | nil => simp [checkMultipleAux]
  | cons t ts ih =>
    intro i acc q
    rw [checkMultipleAux, ih, mem_keys_dictInsert]
    simp only [List.mem_cons]
    tauto

/-- The `check_multiple_tokens` loop keeps the result keys distinct. -/
theorem checkMultipleAux_nodup_keys (f : ℕ → String → Except String Analysis) :
    ∀ (tokens : List String) (i : ℕ) (acc : List (String × TokenReport)),
      (acc.map Prod.fst).Nodup → ((checkMultipleAux f i acc tokens).map Prod.fst).Nodup := by
  intro tokens
  induction tokens with
  | nil => intro i acc h; exact h
  | cons t ts ih =>
    intro i acc h
    exact ih _ _ (nodup_keys_dictInsert t _ acc h)

/-- A query that never occurs in the remaining tokens keeps its accumulator
entry. -/
theorem checkMultipleAux_get_notmem (f : ℕ → String → Except String Analysis) :
    ∀ (tokens : List String) (i : ℕ) (acc : List (String × TokenReport)) (q : String),
      q ∉ tokens →
      dictGet q (checkMultipleAux f i acc tokens) = dictGet q acc := by
  intro tokens
  induction tokens with
  | nil => intro i acc q _; rfl
  | cons t ts ih =>
    intro i acc q hq
    have hqt : q ≠ t := fun h => hq (by rw [h]; exact List.mem_cons_self t ts)
    rw [checkMultipleAux, ih _ _ _ (fun h => hq (List.mem_cons_of_mem t h)),
      dictGet_dictInsert_ne hqt]

/-- The stored report for a query is the one computed at the query's last
occurrence in the token list. -/
theorem checkMultipleAux_get_last (f : ℕ → String → Except String Analysis) :
    ∀ (tokens : List String) (p : ℕ) (hp : p < tokens.length)
      (i : ℕ) (acc : List (String × TokenReport)),
      (∀ (j : ℕ) (hj : j < tokens.length), p < j →
        tokens.get ⟨j, hj⟩ ≠ tokens.get ⟨p, hp⟩) →
      dictGet (tokens.get ⟨p, hp⟩) (checkMultipleAux f i acc tokens) =
        some (mkReport (f (i + p) (tokens.get ⟨p, hp⟩))) := by
  intro tokens
  induction tokens with
  | nil => intro p hp; exact absurd hp (by simp)
  | cons t ts ih =>
    intro p hp i acc hlast
    cases p with
    | zero =>
      have hnot : t ∉ ts := by
        intro hmem
        obtain ⟨⟨j, hj⟩, hget⟩ := List.mem_iff_get.mp hmem
        exact hlast (j + 1) (by simpa using hj) (Nat.succ_pos j) (by simpa using hget)
      show dictGet t (checkMultipleAux f (i + 1) (dictInsert t (mkReport (f i t)) acc) ts) =
        some (mkReport (f (i + 0) t))
      rw [checkMultipleAux_get_notmem f ts _ _ _ hnot, dictGet_dictInsert_self, Nat.add_zero]
    | succ q =>
      have hq : q < ts.length := by simpa using hp
      have hlast' : ∀ (j : ℕ) (hj : j < ts.length), q < j →
          ts.get ⟨j, hj⟩ ≠ ts.get ⟨q, hq⟩ := by
        intro j hj hlt
        have := hlast (j + 1) (by simpa using hj) (by omega)
        simpa using this
      have hgeteq : (t :: ts).get ⟨q + 1, hp⟩ = ts.get ⟨q, hq⟩ := rfl
      rw [checkMultipleAux, hgeteq, ih q hq (i + 1) _ hlast',
        show i + 1 + q = i + (q + 1) from by omega]

/-- C10: `check_multiple_tokens` never propagates an exception — a per-token
failure is recorded as an error entry — and the returned mapping has exactly
one entry per distinct query string, holding the report of that query's last
occurrence (duplicates collapse, last computation wins). -/
theorem check_multiple_tokens_spec (f : ℕ → String → Except String Analysis)
    (tokens : List String) :
    ((check_multiple_tokens f tokens).map Prod.fst).Nodup
    ∧ (∀ q, q ∈ (check_multiple_tokens f tokens).map Prod.fst ↔ q ∈ tokens)
    ∧ (∀ (p : ℕ) (hp : p < tokens.length),
        (∀ (j : ℕ) (hj : j < tokens.length), p < j →
          tokens.get ⟨j, hj⟩ ≠ tokens.get ⟨p, hp⟩) →
        dictGet (tokens.get ⟨p, hp⟩) (check_multiple_tokens f tokens) =
          some (mkReport (f p (tokens.get ⟨p, hp⟩)))) := by
  refine ⟨checkMultipleAux_nodup_keys f tokens 0 [] (by simp), ?_, ?_⟩
  · intro q
    rw [check_multiple_tokens, checkMultipleAux_mem_keys]
    simp
  · intro p hp hlast
    have := checkMultipleAux_get_last f tokens p hp 0 [] hlast
    simpa [check_multiple_tokens] using this

/-- Witness for C10 at a concrete input: the duplicate query `"a"` collapses
to a single entry holding the report of its last occurrence (index 2), where
the computation raised, so the recorded entry is the error report. -/
theorem check_multiple_tokens_spec_witness :
    dictGet (["a", "b", "a"].get ⟨2, by decide⟩)
        (check_multiple_tokens
          (fun i _ => if i = 2 then Except.error "crash" else Except.ok (analyze_prices 1 []))
          ["a", "b", "a"]) =
      some (mkReport ((fun i (_ : String) =>
          if i = 2 then Except.error "crash" else Except.ok (analyze_prices 1 [])) 2
        (["a", "b", "a"].get ⟨2, by decide⟩))) :=
  (check_multiple_tokens_spec
      (fun i _ => if i = 2 then Except.error "crash" else Except.ok (analyze_prices 1 []))
      ["a", "b", "a"]).2.2 2 (by decide)
    (by intro j hj hlt; exfalso; simp at hj; omega)

/-- C1 (counterexample): with one healthy adapter and one adapter whose call
raises, `get_token_prices` returns only the healthy quote; the returned
sequence contains no Quote at all for the failing adapter — the escaped
exception's text appears in no error field, contradicting the claimed
conversion into a terminal error Quote. -/
theorem get_token_prices_exception_dropped_counterexample :
    get_token_prices (some { id := none, symbol := "SOL", name := none, platforms := [] })
        [{ kind := ExchangeKind.binance,
           get_price := fun _ _ => Except.ok
             { exchange_name := "Binance", exchange_type := ExchangeType.CEX,
               price := some 100, token_symbol := "SOL" } },
         { kind := ExchangeKind.bybit,
           get_price := fun _ _ => Except.error "boom" }] =
      [{ exchange_name := "Binance", exchange_type := ExchangeType.CEX,
         price := some 100, token_symbol := "SOL" }]
    ∧ (get_token_prices (some { id := none, symbol := "SOL", name := none, platforms := [] })
        [{ kind := ExchangeKind.binance,
           get_price := fun _ _ => Except.ok
             { exchange_name := "Binance", exchange_type := ExchangeType.CEX,
               price := some 100, token_symbol := "SOL" } },
         { kind := ExchangeKind.bybit,
           get_price := fun _ _ => Except.error "boom" }]).filter
        (fun p => p.error.isSome) = [] := by
  constructor <;> decide

/-- C1 (amended): an adapter call that raises past the adapter contract is
silently dropped from the gathered results (after being logged): for a
resolved token, `get_token_prices` returns exactly the quotes of the
successful task outcomes, in task order, so one buggy adapter cannot abort
the batch but leaves no error Quote behind. -/
theorem get_token_prices_keeps_exactly_successes (token_info : TokenInfo)
    (exchanges : List Exchange) :
    get_token_prices (some token_info) exchanges =
      (buildTasks exchanges token_info.symbol token_info.platforms).filterMap
        (fun price => match price with
          | Except.ok p => some p
          | Except.error _ => none)
    ∧ ∀ p : ExchangePrice,
        (p ∈ get_token_prices (some token_info) exchanges ↔
          Except.ok p ∈ buildTasks exchanges token_info.symbol token_info.platforms) := by
  have heq : get_token_prices (some token_info) exchanges =
      (buildTasks exchanges token_info.symbol token_info.platforms).filterMap
        (fun price => match price with
          | Except.ok p => some p
          | Except.error _ => none) := by
    simp only [get_token_prices]
    by_cases h : (buildTasks exchanges token_info.symbol token_info.platforms).isEmpty = true
    · rw [if_pos h, List.isEmpty_iff.mp h]
      rfl
    · rw [if_neg h]
  refine ⟨heq, fun p => ?_⟩
  rw [heq, List.mem_filterMap]
  constructor
  · rintro ⟨r, hr, hfr⟩
    cases r with
    | ok q =>
      obtain rfl : q = p := by simpa using hfr
      exact hr
    | error e => simp at hfr
  · intro h
    exact ⟨Except.ok p, h, rfl⟩

/-- C2 (counterexample): an unresolvable token and a resolved token on which
no adapter participates produce the very same structured result from
`check_token_price` — the caller cannot distinguish the two outcomes, and no
resolution error is signalled. -/
theorem check_token_price_resolution_indistinguishable_counterexample :
    check_token_price (1/2) none
        [{ kind := ExchangeKind.raydium, get_price := fun _ _ => Except.error "ignored" }] =
      check_token_price (1/2)
        (some { id := none, symbol := "SOL", name := none, platforms := [] })
        [{ kind := ExchangeKind.raydium, get_price := fun _ _ => Except.error "ignored" }] := by
  decide

/-- C2 (amended): when resolution fails, `get_token_prices` returns the empty
sequence without signalling anything to the caller (the error is only
logged); `check_token_price` then returns the zero-quote analysis dict, a
value that a resolved token with no participating adapter also produces, so
the result does not distinguish the two outcomes. -/
theorem get_token_prices_resolution_failure (min_diff : ℚ) (exchanges : List Exchange) :
    get_token_prices none exchanges = []
    ∧ check_token_price min_diff none exchanges = analyze_prices min_diff []
    ∧ ∃ (token_info : TokenInfo) (other : List Exchange),
        check_token_price min_diff (some token_info) other =
          check_token_price min_diff none exchanges :=
  ⟨rfl, rfl, ⟨{ id := none, symbol := "SOL", name := none, platforms := [] }, [], rfl⟩⟩

/-- All ordered pairs `(l[i], l[j])` with `i < j`, in the scan order of the
nested loop of `analyze_prices`. -/
def scanPairs {α : Type} : List α → List (α × α)
  | [] => []
  | a :: rest => (rest.map fun b => (a, b)) ++ scanPairs rest

/-- Threshold test applied by `analyze_prices` to one pair of quotes:
`abs(calculate_price_difference(price1.price, price2.price)) >= min_diff`. -/
def oppThreshold (min_diff : ℚ) (ab : ExchangePrice × ExchangePrice) : Bool :=
  decide (min_diff ≤ |calculate_price_difference ab.1.priceVal ab.2.priceVal|)

/-- The inner loop of the pairwise scan, re-expressed as pairing, filtering
by the threshold, and building the opportunity. -/
theorem innerLoop_eq_filter_map (min_diff : ℚ) (a : ExchangePrice) :
    ∀ rest : List ExchangePrice,
      (rest.filterMap fun price2 =>
        let diff_percent := |calculate_price_difference a.priceVal price2.priceVal|
        if min_diff ≤ diff_percent then some (mkOpportunity a price2 diff_percent)
        else none) =
      ((rest.map fun b => (a, b)).filter (oppThreshold min_diff)).map fun ab =>
        mkOpportunity ab.1 ab.2
          |calculate_price_difference ab.1.priceVal ab.2.priceVal| := by
  intro rest
  induction rest with
  | nil => rfl
  | cons b bs ih =>
    simp only [List.filterMap_cons, List.map_cons, List.filter_cons]
    by_cases h : min_diff ≤ |calculate_price_difference a.priceVal b.priceVal|
    · simp only [h, if_pos h, oppThreshold, decide_eq_true_eq, if_true, List.map_cons, ih]
    · simp only [h, if_neg h, oppThreshold, decide_eq_true_eq, if_false, ih]

/-- The pairwise opportunity loop equals the filtered, mapped pair scan. -/
theorem rawOpportunities_eq_scan (min_diff : ℚ) :
    ∀ l : List ExchangePrice,
      rawOpportunities min_diff l =
        ((scanPairs l).filter (oppThreshold min_diff)).map fun ab =>
          mkOpportunity ab.1 ab.2
            |calculate_price_difference ab.1.priceVal ab.2.priceVal| := by
  intro l
  induction l with
  | nil => rfl
  | cons a rest ih =>
    rw [rawOpportunities, scanPairs, List.filter_append, List.map_append, ih,
      innerLoop_eq_filter_map]

/-- The opportunity list of an analysis is the stable descending sort of the
raw pairwise scan over the valid quotes. -/
theorem analyze_prices_opportunities_eq (min_diff : ℚ) (prices : List ExchangePrice) :
    (analyze_prices min_diff prices).opportunities =
      (rawOpportunities min_diff (prices.filter ExchangePrice.is_valid)).insertionSort
        oppGE := by
  cases hv : prices.filter ExchangePrice.is_valid with
  | nil => simp [analyze_prices, hv, rawOpportunities]
  | cons x xs => simp [analyze_prices, hv]

/-- Opportunity condition exactly as §8 of the spec words it:
`|price_a - price_b| / min(price_a, price_b) × 100 >= t`. -/
def specPairCondition (price_a price_b t : ℚ) : Prop :=
  t ≤ |price_a - price_b| / min price_a price_b * 100

/-- C3 (counterexample): for valid quotes priced 100 and 200 at threshold 75,
the spec's condition (denominator `min(price_a, price_b)`) holds — the
difference is 100% of the minimum — yet `analyze_prices` emits no
opportunity, because the code divides by `price2`, giving 50 < 75. -/
theorem analyze_prices_pair_condition_counterexample :
    specPairCondition 100 200 75
    ∧ (analyze_prices 75
        [{ exchange_name := "A", exchange_type := ExchangeType.CEX, price := some 100,
           token_symbol := "T" },
         { exchange_name := "B", exchange_type := ExchangeType.CEX, price := some 200,
           token_symbol := "T" }]).opportunities = [] := by
  constructor
  · unfold specPairCondition
    decide
  · decide

/-- C3 (amended): `analyze_prices` emits an opportunity for the ordered pair
`(a, b)` of the valid-quote scan (a before b) iff
`|(price_a − price_b) / price_b| × 100 ≥ t` — the denominator is the second
quote's price, not `min(price_a, price_b)` — and its opportunity list is the
sorted image of exactly those pairs. -/
theorem analyze_prices_pair_condition (min_diff : ℚ) (prices : List ExchangePrice)
    (a b : ExchangePrice) :
    ((a, b) ∈ (scanPairs (prices.filter ExchangePrice.is_valid)).filter
        (oppThreshold min_diff) ↔
      (a, b) ∈ scanPairs (prices.filter ExchangePrice.is_valid) ∧
        min_diff ≤ |calculate_price_difference a.priceVal b.priceVal|)
    ∧ (analyze_prices min_diff prices).opportunities =
        (((scanPairs (prices.filter ExchangePrice.is_valid)).filter
            (oppThreshold min_diff)).map fun ab =>
          mkOpportunity ab.1 ab.2
            |calculate_price_difference ab.1.priceVal ab.2.priceVal|).insertionSort
          oppGE := by
  constructor
  · rw [List.mem_filter]
    simp [oppThreshold]
  · rw [analyze_prices_opportunities_eq, rawOpportunities_eq_scan]

instance : IsTotal ArbitrageOpportunity oppGE :=
  ⟨fun a b => (le_total b.potential_profit_percent a.potential_profit_percent).imp id id⟩

instance : IsTrans ArbitrageOpportunity oppGE :=
  ⟨fun _ _ _ hab hbc => le_trans hbc hab⟩

/-- Inserting an element whose key equals `c` into a partially sorted list
puts it in front of every other element with key `c`, since the elements it
is inserted past all have strictly greater keys. -/
theorem filter_key_orderedInsert_eq (c : ℚ) (x : ArbitrageOpportunity)
    (hx : x.potential_profit_percent = c) :
    ∀ l : List ArbitrageOpportunity,
      (l.orderedInsert oppGE x).filter (fun o => decide (o.potential_profit_percent = c)) =
        x :: l.filter (fun o => decide (o.potential_profit_percent = c)) := by
  intro l
  induction l with
  | nil => simp [List.orderedInsert, hx]
  | cons y ys ih =>
    by_cases hr : oppGE x y
    · rw [List.orderedInsert, if_pos hr, List.filter_cons, List.filter_cons]
      simp [hx]
    · have hy : y.potential_profit_percent ≠ c := by
        intro hyc
        exact hr (by rw [oppGE, hyc, ← hx])
      rw [List.orderedInsert, if_neg hr, List.filter_cons, List.filter_cons]
      simp [hy, ih]

/-- Inserting an element with a different key leaves the filtered
subsequence for key `c` unchanged. -/
theorem filter_key_orderedInsert_ne (c : ℚ) (x : ArbitrageOpportunity)
    (hx : x.potential_profit_percent ≠ c) :
    ∀ l : List ArbitrageOpportunity,
      (l.orderedInsert oppGE x).filter (fun o => decide (o.potential_profit_percent = c)) =
        l.filter (fun o => decide (o.potential_profit_percent = c)) := by
  intro l
  induction l with
  | nil => simp [List.orderedInsert, hx]
  | cons y ys ih =>
    by_cases hr : oppGE x y
    · rw [List.orderedInsert, if_pos hr, List.filter_cons, List.filter_cons]
      simp [hx]
    · rw [List.orderedInsert, if_neg hr, List.filter_cons, List.filter_cons, ih]

/-- Stability of the model of Python's sort: for every key value, the sorted
list restricted to that key is the original insertion-order subsequence. -/
theorem filter_key_insertionSort (c : ℚ) :
    ∀ l : List ArbitrageOpportunity,
      (l.insertionSort oppGE).filter (fun o => decide (o.potential_profit_percent = c)) =
        l.filter (fun o => decide (o.potential_profit_percent = c)) := by
  intro l
  induction l with
  | nil => rfl
  | cons x xs ih =>
    rw [List.insertionSort]
    by_cases hx : x.potential_profit_percent = c
    · rw [filter_key_orderedInsert_eq c x hx, ih, List.filter_cons]
      simp [hx]
    · rw [filter_key_orderedInsert_ne c x hx, ih, List.filter_cons]
      simp [hx]

/-- C7: the opportunity sequence returned by `analyze_prices` is sorted in
descending order of `potential_profit_percent`, and for every profit value
the opportunities carrying it appear in their insertion (pairwise-scan)
order — the sort is stable. -/
theorem analyze_prices_opportunities_sorted_stable (min_diff : ℚ)
    (prices : List ExchangePrice) :
    (analyze_prices min_diff prices).opportunities.Sorted oppGE
    ∧ ∀ c : ℚ,
        (analyze_prices min_diff prices).opportunities.filter
            (fun o => decide (o.potential_profit_percent = c)) =
          (rawOpportunities min_diff (prices.filter ExchangePrice.is_valid)).filter
            (fun o => decide (o.potential_profit_percent = c)) := by
  constructor
  · rw [analyze_prices_opportunities_eq]
    exact List.sorted_insertionSort oppGE _
  · intro c
    rw [analyze_prices_opportunities_eq, filter_key_insertionSort]

/-- A valid quote has a strictly positive price value. -/
theorem priceVal_pos_of_valid (p : ExchangePrice) (h : p.is_valid = true) :
    0 < p.priceVal := by
  rw [ExchangePrice.is_valid, Bool.and_eq_true] at h
  cases hp : p.price with
  | none => rw [hp] at h; simp at h
  | some v =>
    rw [hp] at h
    simp only [decide_eq_true_eq] at h
    simpa [ExchangePrice.priceVal, hp] using h.1

/-- A left fold of `min` over positive rationals stays positive. -/
theorem foldl_min_pos :
    ∀ (xs : List ℚ) (x : ℚ), 0 < x → (∀ y ∈ xs, 0 < y) → 0 < xs.foldl min x := by
  intro xs
  induction xs with
  | nil => intro x hx _; exact hx
  | cons y ys ih =>
    intro x hx hmem
    rw [List.foldl_cons]
    exact ih (min x y) (lt_min hx (hmem y (List.mem_cons_self y ys)))
      fun z hz => hmem z (List.mem_cons_of_mem y hz)

/-- The checked percentage-difference always succeeds: the `price2 == 0`
guard fires before any division. -/
theorem calculate_price_difference_checked_eq (price1 price2 : ℚ) :
    calculate_price_difference_checked price1 price2 =
      some (calculate_price_difference price1 price2) := by
  by_cases h : price2 = 0
  · simp [calculate_price_difference_checked, calculate_price_difference, h]
  · simp [calculate_price_difference_checked, calculate_price_difference, h, pydiv]

/-- Building one opportunity from two positively priced quotes never divides
by zero. -/
theorem mkOpportunityChecked_eq (price1 price2 : ExchangePrice) (d : ℚ)
    (h1 : 0 < price1.priceVal) (h2 : 0 < price2.priceVal) :
    mkOpportunityChecked price1 price2 d = some (mkOpportunity price1 price2 d) := by
  by_cases h : price1.priceVal < price2.priceVal
  · simp [mkOpportunityChecked, mkOpportunity, h, pydiv, h1.ne']
  · simp [mkOpportunityChecked, mkOpportunity, h, pydiv, h2.ne']

/-- The checked inner pairwise loop succeeds on positively priced quotes and
computes the same opportunities as the total model. -/
theorem innerLoopChecked_eq (min_diff : ℚ) (price1 : ExchangePrice)
    (h1 : 0 < price1.priceVal) :
    ∀ rest : List ExchangePrice, (∀ b ∈ rest, 0 < b.priceVal) →
      (rest.foldr (fun price2 acc => do
        let acc ← acc
        let d ← calculate_price_difference_checked price1.priceVal price2.priceVal
        let diff_percent := |d|
        if min_diff ≤ diff_percent then
          let opp ← mkOpportunityChecked price1 price2 diff_percent
          pure (opp :: acc)
        else
          pure acc) (some [])) =
      some (rest.filterMap fun price2 =>
        let diff_percent := |calculate_price_difference price1.priceVal price2.priceVal|
        if min_diff ≤ diff_percent then some (mkOpportunity price1 price2 diff_percent)
        else none) := by
  intro rest
  induction rest with
  | nil => intro _; rfl
  | cons b bs ih =>
    intro hmem
    have hb : 0 < b.priceVal := hmem b (List.mem_cons_self b bs)
    have hbs := fun z hz => hmem z (List.mem_cons_of_mem b hz)
    rw [List.foldr_cons, ih hbs, List.filterMap_cons]
    simp only [Option.bind_eq_bind, Option.some_bind, calculate_price_difference_checked_eq,
      mkOpportunityChecked_eq price1 b _ h1 hb]
    by_cases h : min_diff ≤ |calculate_price_difference price1.priceVal b.priceVal|
    · simp [h]
    · simp [h]

/-- The checked pairwise scan succeeds on positively priced quotes. -/
theorem rawOpportunitiesChecked_eq (min_diff : ℚ) :
    ∀ l : List ExchangePrice, (∀ p ∈ l, 0 < p.priceVal) →
      rawOpportunitiesChecked min_diff l = some (rawOpportunities min_diff l) := by
  intro l
  induction l with
  | nil => intro _; rfl
  | cons a rest ih =>
    intro hmem
    have ha : 0 < a.priceVal := hmem a (List.mem_cons_self a rest)
    have hrest := fun z hz => hmem z (List.mem_cons_of_mem a hz)
    rw [rawOpportunitiesChecked, rawOpportunities]
    rw [innerLoopChecked_eq min_diff a ha rest hrest]
    simp only [Option.bind_eq_bind, Option.some_bind, ih hrest]
    rfl

/-- Checked division succeeds whenever the denominator is nonzero. -/
theorem pydiv_ne (a : ℚ) {b : ℚ} (hb : b ≠ 0) : pydiv a b = some (a / b) := by
  simp [pydiv, hb]

/-- Every fallible operation inside `analyze_prices` succeeds on every input:
the checked analyzer always returns the total analyzer's result. -/
theorem analyze_prices_checked_eq (min_diff : ℚ) (prices : List ExchangePrice) :
    analyze_prices_checked min_diff prices = some (analyze_prices min_diff prices) := by
  cases hv : prices.filter ExchangePrice.is_valid with
  | nil => simp [analyze_prices, analyze_prices_checked, hv]
  | cons x xs =>
    have hposall : ∀ p ∈ x :: xs, 0 < p.priceVal := by
      intro p hp
      have hmem : p ∈ prices.filter ExchangePrice.is_valid := hv ▸ hp
      exact priceVal_pos_of_valid p (List.of_mem_filter hmem)
    have hxpos : 0 < x.priceVal := hposall x (List.mem_cons_self x xs)
    have hvpos : ∀ v ∈ xs.map ExchangePrice.priceVal, 0 < v := by
      intro v hv2
      obtain ⟨p, hp, rfl⟩ := List.mem_map.mp hv2
      exact hposall p (List.mem_cons_of_mem x hp)
    have hminpos : 0 < (xs.map ExchangePrice.priceVal).foldl min x.priceVal :=
      foldl_min_pos _ _ hxpos hvpos
    have hlenne : ((((xs.map ExchangePrice.priceVal).length + 1 : ℕ)) : ℚ) ≠ 0 :=
      Nat.cast_ne_zero.mpr (Nat.succ_ne_zero _)
    simp only [analyze_prices_checked, analyze_prices, hv, List.map_cons, List.length_cons,
      pyminChecked, pymaxChecked, pymin, pymax,
      pydiv_ne _ hlenne, pydiv_ne _ hminpos.ne',
      rawOpportunitiesChecked_eq min_diff (x :: xs) hposall,
      Option.bind_eq_bind, Option.some_bind]
    rfl

/-- C9: `analyze_prices` is total — no arithmetic error can be raised — on
every input quote list: the checked model in which every division (and
`min`/`max` of an empty list) is fallible always succeeds and agrees with
the total model, and `calculate_price_difference` returns `0` on a zero
second price rather than dividing. -/
theorem analyze_prices_total (min_diff : ℚ) (prices : List ExchangePrice) :
    analyze_prices_checked min_diff prices = some (analyze_prices min_diff prices)
    ∧ ∀ p1 : ℚ, calculate_price_difference_checked p1 0 = some 0
        ∧ calculate_price_difference p1 0 = 0 := by
  refine ⟨analyze_prices_checked_eq min_diff prices, fun p1 => ⟨?_, ?_⟩⟩
  · simp [calculate_price_difference_checked]
  · simp [calculate_price_difference]

/-- C6: if a fresh (cache-missing) query resolves successfully, then any
case-variant of it issued within the cache TTL is answered from the cache —
the same `ResolvedToken` is returned, the cache is untouched, and zero
external metadata requests are made, against any metadata source. -/
theorem search_token_cache_hit (src src2 : MetaSource) (ttl t t2 : ℚ) (c c1 : Cache)
    (q q2 : String) (info : TokenInfo) (n : ℕ)
    (hq : strLower q2 = strLower q)
    (hmiss : dictGet ("search_" ++ strLower q) c = none)
    (h1 : search_token src ttl t c q = (some info, c1, n))
    (hfresh : t2 - t < ttl) :
    search_token src2 ttl t2 c1 q2 = (some info, c1, 0) := by
  have hget1 : cacheGet ttl t ("search_" ++ strLower q) c = (none, c) := by
    simp only [cacheGet, hmiss]
  simp only [search_token, hget1] at h1
  cases hcl : src.coinsList with
  | error e =>
    simp only [searchTokenFetch, hcl] at h1
    simp at h1
  | ok coins =>
    simp only [searchTokenFetch, hcl] at h1
    cases hfind : coins.find? (coinMatches (strLower q)) with
    | none =>
      simp only [hfind] at h1
      simp at h1
    | some coin =>
      simp only [hfind] at h1
      rcases hgt : get_token_info src ttl t c coin.id with ⟨ci, c2, k⟩
      rw [hgt] at h1
      simp only [Prod.mk.injEq] at h1
      obtain ⟨hci, hc1, -⟩ := h1
      subst hci
      have hkey : "search_" ++ strLower q2 = "search_" ++ strLower q := by rw [hq]
      have hlook : dictGet ("search_" ++ strLower q) c1 = some ⟨some info, t⟩ := by
        rw [← hc1]
        exact dictGet_dictInsert_self _ _ c2
      have hget2 : cacheGet ttl t2 ("search_" ++ strLower q) c1 = (some (some info), c1) := by
        simp only [cacheGet, hlook]
        rw [if_pos hfresh]
      simp only [search_token, hkey, hget2, truthy, ite_true]


/-- Witness for C6 at a concrete run: `search_token "sol"` on an empty cache
resolves Solana with 2 external requests; `search_token "SOL"` one second
later is served from the cache with 0 requests — even against a metadata
source that is entirely offline. -/
theorem search_token_cache_hit_witness :
    search_token
      { coinsList := Except.error "offline", coinDetail := fun _ => Except.error "offline" }
      3600 1
      [("info_solana",
        { value := some { id := some "solana", symbol := "SOL", name := some "Solana",
                          platforms := [("solana", "So1112")] },
          timestamp := 0 }),
       ("search_sol",
        { value := some { id := some "solana", symbol := "SOL", name := some "Solana",
                          platforms := [("solana", "So1112")] },
          timestamp := 0 })]
      "SOL" =
    (some { id := some "solana", symbol := "SOL", name := some "Solana",
            platforms := [("solana", "So1112")] },
     [("info_solana",
       { value := some { id := some "solana", symbol := "SOL", name := some "Solana",
                         platforms := [("solana", "So1112")] },
         timestamp := 0 }),
      ("search_sol",
       { value := some { id := some "solana", symbol := "SOL", name := some "Solana",
                         platforms := [("solana", "So1112")] },
         timestamp := 0 })],
     0) :=
  search_token_cache_hit
    { coinsList := Except.ok [{ id := "solana", symbol := "sol", name := "Solana" }],
      coinDetail := fun cid =>
        if cid = "solana" then
          Except.ok { id := some "solana", symbol := "sol", name := some "Solana",
                      platforms := [("solana", "So1112")] }
        else Except.error "not found" }
    { coinsList := Except.error "offline", coinDetail := fun _ => Except.error "offline" }
    3600 0 1 []
    [("info_solana",
      { value := some { id := some "solana", symbol := "SOL", name := some "Solana",
                        platforms := [("solana", "So1112")] },
        timestamp := 0 }),
     ("search_sol",
      { value := some { id := some "solana", symbol := "SOL", name := some "Solana",
                        platforms := [("solana", "So1112")] },
        timestamp := 0 })]
    "sol" "SOL"
    { id := some "solana", symbol := "SOL", name := some "Solana",
      platforms := [("solana", "So1112")] }
    2 (by decide) (by decide) (by decide) (by decide)
